import Mathlib

/-!
Verification of the XBlock repository's mixin/field core and its Django
request adapter, via a shallow embedding of the Python code in Lean 4.

The Django request adapter (`xblock/django/request.py`) is embedded
directly from its source.  The field/mixin core (`xblock/mixins.py`,
`xblock/fields.py`, `xblock/core.py`) is not present in the sources
available here — only its tests are — so those parts are modelled from
the specification's description; every such definition carries a doc
comment starting with `Modelled from the spec:`.

The file is organized as one region of definitions followed by one
region of theorems.
-/

set_option autoImplicit false

namespace XBlockSpec

/-! ## Definitions: Django request adapter, `HeaderDict`
(src/xblock/django/request.py) -/

/-- The two META keys that are not given the `HTTP_` prefix,
from `HeaderDict.UNPREFIXED_HEADERS`. -/
def UNPREFIXED_HEADERS : List String := ["CONTENT_TYPE", "CONTENT_LENGTH"]

/-- Python's `str.replace('-', '_')` applied character by character. -/
def dashToUnderscore (c : Char) : Char := if c = '-' then '_' else c

/-- The translated form of a header name before prefixing:
`name.upper().replace('-', '_')`.  Both Python operations act character
by character on ASCII header names, so they are embedded as one map
over the string's characters. -/
def normName (name : String) : String :=
  String.mk (name.data.map (fun c => dashToUnderscore c.toUpper))

/-- Embedding of `HeaderDict._meta_name`: upper-case, replace `-` with `_`,
and prefix with `HTTP_` unless the translated name is one of the
unprefixed headers. -/
def metaName (name : String) : String :=
  let n := normName name
  if n ∈ UNPREFIXED_HEADERS then n else "HTTP_" ++ n

/-- A Django `request.META` dictionary, as an association list. -/
def MetaDict := List (String × String)

/-- Dictionary lookup on META. -/
def metaGet (m : MetaDict) (k : String) : Option String :=
  List.lookup k m

/-- Dictionary assignment on META: replace the value at an existing key,
or append a fresh entry. -/
def metaSet (m : MetaDict) (k v : String) : MetaDict :=
  match m with
  | [] => [(k, v)]
  | (k₀, v₀) :: rest =>
      if k₀ = k then (k₀, v) :: rest else (k₀, v₀) :: metaSet rest k v

/-- Dictionary deletion on META: remove every entry at the key. -/
def metaDel (m : MetaDict) (k : String) : MetaDict :=
  List.filter (fun p => p.1 ≠ k) m

/-- Embedding of `HeaderDict.__getitem__`: look up the translated key. -/
def headerGet (m : MetaDict) (name : String) : Option String :=
  metaGet m (metaName name)

/-- Embedding of `HeaderDict.__setitem__`: assign at the translated key. -/
def headerSet (m : MetaDict) (name v : String) : MetaDict :=
  metaSet m (metaName name) v

/-- Embedding of `HeaderDict.__delitem__`: delete at the translated key. -/
def headerDel (m : MetaDict) (name : String) : MetaDict :=
  metaDel m (metaName name)

/-- The spec's wording of the underlying key: the upper-cased name with
`-` replaced by `_`, prefixed with `HTTP_` unless the translated name is
`CONTENT_TYPE` or `CONTENT_LENGTH`. -/
def specHeaderKey (name : String) : String :=
  let t := normName name
  if t = "CONTENT_TYPE" ∨ t = "CONTENT_LENGTH" then t else "HTTP_" ++ t

/-! ## Definitions: field declarations and scoped storage
(modelled from the spec) -/

/-- Modelled from the spec: the enumerated storage scopes partitioning
field storage (`xblock/fields.py` is not among the sources). -/
inductive Scope where
  | content
  | settings
  | children
  | userState
  deriving DecidableEq, Repr

/-- Modelled from the spec: a field value — a string, an ordered sequence,
or the null value (`xblock/fields.py` is not among the sources). -/
inductive Value where
  | str (s : String)
  | strList (vs : List String)
  | null
  deriving DecidableEq, Repr

/-- Modelled from the spec: a field's default — a static value or the
sentinel meaning "generate a fresh unique identifier"
(`xblock/fields.py` is not among the sources). -/
inductive FieldDefault where
  | static (v : Value)
  | uniqueId
  deriving DecidableEq, Repr

/-- Modelled from the spec: a field declaration with its scope, default
policy and export policy (`xblock/fields.py` is not among the sources). -/
structure Field where
  scope : Scope
  default : FieldDefault
  force_export : Bool
  deriving DecidableEq, Repr

/-- Modelled from the spec: a class participating in scoped storage,
reduced to its own declared fields (`xblock/mixins.py`, which holds
`ScopedStorageMixin` and its metaclass, is not among the sources). -/
structure PyClass where
  ownFields : List (String × Field)
  deriving DecidableEq, Repr

/-- Insert a named field into the accumulating mapping only if the name
is not already present (the spec's first-occurrence-wins step). -/
def insertAbsent (acc : List (String × Field)) (nf : String × Field) :
    List (String × Field) :=
  if (List.lookup nf.1 acc).isSome then acc else acc ++ [nf]

/-- Merge one ancestor's own declared fields into the accumulating
mapping. -/
def classInsert (acc : List (String × Field)) (cls : PyClass) :
    List (String × Field) :=
  cls.ownFields.foldl insertAbsent acc

/-- Modelled from the spec: the resolved field mapping of a class, built
by traversing its ancestors in method-resolution order and inserting
each ancestor's declared fields only when the name is not already
present (`xblock/mixins.py` is not among the sources). -/
def resolveFields (mro : List PyClass) : List (String × Field) :=
  mro.foldl classInsert []

/-- The first Field bound to a name along the method-resolution order. -/
def firstDecl (name : String) : List PyClass → Option Field
  | [] => none
  | cls :: rest =>
      match List.lookup name cls.ownFields with
      | some f => some f
      | none => firstDecl name rest

/-- A concrete field declared by the primary ancestor in the examples. -/
def fieldP : Field := ⟨Scope.settings, .static (.str "p"), false⟩

/-- A concrete same-named field declared by an unrelated mixin. -/
def fieldM : Field := ⟨Scope.settings, .static (.str "m"), false⟩

/-- A concrete field declared only by the mixin. -/
def fieldC : Field := ⟨Scope.content, .static (.str "c"), false⟩

/-- Example primary ancestor declaring field `a`. -/
def primaryCls : PyClass := ⟨[("a", fieldP)]⟩

/-- Example unrelated mixin declaring fields `a` and `c`. -/
def mixinCls : PyClass := ⟨[("a", fieldM), ("c", fieldC)]⟩

/-- Example subclass declaring no fields of its own. -/
def childCls : PyClass := ⟨[]⟩

/-- Example method-resolution order: the subclass, then the primary
ancestor, then the unrelated mixin. -/
def exampleMro : List PyClass := [childCls, primaryCls, mixinCls]

/-! ## Definitions: per-class mapping objects
(modelled from the spec) -/

/-- Modelled from the spec: a store of per-class `fields` mapping
objects.  A pointer (index) into the store stands for a distinct
mapping object, which makes aliasing between classes observable. -/
structure Heap where
  cells : List (List (String × Field))

/-- Allocate a fresh mapping object, returning the grown store and the
new object's pointer. -/
def Heap.alloc (h : Heap) (m : List (String × Field)) : Heap × Nat :=
  (⟨h.cells ++ [m]⟩, h.cells.length)

/-- Read the mapping object at a pointer. -/
def Heap.read (h : Heap) (p : Nat) : List (String × Field) :=
  (h.cells[p]?).getD []

/-- Overwrite the mapping object at a pointer. -/
def Heap.write (h : Heap) (p : Nat) (m : List (String × Field)) : Heap :=
  ⟨h.cells.set p m⟩

/-- Modelled from the spec: defining a class computes the resolved
fields of the class's MRO once, at class-definition time, and stores
them in a freshly allocated mapping object (the metaclass in
`xblock/mixins.py` is not among the sources). -/
def defineClass (h : Heap) (mro : List PyClass) : Heap × Nat :=
  h.alloc (resolveFields mro)

/-! ## Definitions: XML serialization (modelled from the spec) -/

/-- Modelled from the spec: a block class reduced to its resolved field
mapping and its plugin-identity entry point (`xblock/core.py` and
`XmlSerializationMixin` in `xblock/mixins.py` are not among the
sources). -/
structure Block where
  fields : List (String × Field)
  entry_point : String

/-- The per-instance field data: the names holding explicitly set
values, backing the spec's storage contract. -/
def FieldData := List (String × Value)

/-- Modelled from the spec: `Field.is_set_on` — whether the backing
store holds an explicit value for the field, as opposed to the field
merely having a default. -/
def is_set_on (data : FieldData) (name : String) : Bool :=
  (List.lookup name data).isSome

/-- An external XML node's attribute mapping. -/
def Node := List (String × Value)

/-- `node.set`: assign an attribute, replacing an existing one. -/
def nodeSet (node : Node) (k : String) (v : Value) : Node :=
  match node with
  | [] => [(k, v)]
  | (k₀, v₀) :: rest =>
      if k₀ = k then (k₀, v) :: rest else (k₀, v₀) :: nodeSet rest k v

/-- Modelled from the spec: the runtime's unique-identifier source — a
stream of generated identifiers indexed by a counter. -/
def IdGen := Nat → String

/-- Modelled from the spec: the value a field exports — the explicitly
set value when present, else the static default, else a freshly
generated unique identifier, advancing the generator counter. -/
def exportValue (gen : IdGen) (data : FieldData) (ctr : Nat)
    (name : String) (f : Field) : Value × Nat :=
  match List.lookup name data with
  | some v => (v, ctr)
  | none =>
      match f.default with
      | .static v => (v, ctr)
      | .uniqueId => (.str (gen ctr), ctr + 1)

/-- Modelled from the spec: the export walk over the block's fields —
write one attribute per field that is explicitly set or force-exported,
and skip every other field. -/
def serializeFields (gen : IdGen) (data : FieldData) :
    List (String × Field) → Node → Nat → Node × Nat
  | [], node, ctr => (node, ctr)
  | nf :: rest, node, ctr =>
      if is_set_on data nf.1 || nf.2.force_export then
        let r := exportValue gen data ctr nf.1 nf.2
        serializeFields gen data rest (nodeSet node nf.1 r.1) r.2
      else serializeFields gen data rest node ctr

/-- Modelled from the spec: `XmlSerializationMixin.add_xml_to_node` —
stamp the node with the block's plugin identity under the
`xblock-family` attribute and run the export walk over the block's
fields. -/
def add_xml_to_node (gen : IdGen) (blk : Block) (data : FieldData)
    (node : Node) (ctr : Nat) : Node × Nat :=
  serializeFields gen data blk.fields
    (nodeSet node "xblock-family" (.str blk.entry_point)) ctr

/-- The attribute-name effect of one attribute assignment. -/
def keysInsert (ks : List String) (k : String) : List String :=
  if k ∈ ks then ks else ks ++ [k]

/-- The example block of the serialization tests: five string fields
with the tests' defaults and export policies. -/
def testBlock : Block :=
  ⟨[("field", ⟨Scope.content, .static .null, false⟩),
    ("simple_default", ⟨Scope.content, .static (.str "default"), false⟩),
    ("simple_default_with_force_export",
      ⟨Scope.content, .static (.str "default"), true⟩),
    ("unique_id_default", ⟨Scope.content, .uniqueId, false⟩),
    ("unique_id_default_with_force_export",
      ⟨Scope.content, .uniqueId, true⟩)],
   "xblock.v1"⟩

/-! ## Definitions: hierarchy mixin (modelled from the spec) -/

/-- Modelled from the spec: a class using the hierarchy mixin — its own
`has_children` declaration (`none` when the class does not set the
flag) together with its own field declarations (`HierarchyMixin` in
`xblock/mixins.py` is not among the sources). -/
structure HClass where
  ownHasChildren : Option Bool
  ownFields : List (String × Field)
  deriving DecidableEq, Repr

/-- View of a hierarchy-mixin class as a plain scoped-storage class. -/
def HClass.toPyClass (c : HClass) : PyClass := ⟨c.ownFields⟩

/-- Modelled from the spec: the inherited truth value of the
`has_children` flag — the first explicit declaration along the MRO,
false when no class declares it. -/
def has_children : List HClass → Bool
  | [] => false
  | cls :: rest =>
      match cls.ownHasChildren with
      | some b => b
      | none => has_children rest

/-- Modelled from the spec: the injected `children` field — dedicated
children scope, empty-sequence default. -/
def childrenField : Field := ⟨Scope.children, .static (.strList []), false⟩

/-- Modelled from the spec: the hierarchy metaclass resolves the
ordinary scoped-storage fields and, when the `has_children` flag is
set, injects the `children` field if not already present. -/
def hierarchyFields (mro : List HClass) : List (String × Field) :=
  let base := resolveFields (mro.map HClass.toPyClass)
  if has_children mro then insertAbsent base ("children", childrenField)
  else base

/-- Example children-capable class: sets the flag, declares no fields. -/
def capableCls : HClass := ⟨some true, []⟩

/-- Example subclass that does not touch the `has_children` flag. -/
def plainSub : HClass := ⟨none, []⟩

/-! ## Definitions: views/capability mixin (modelled from the spec) -/

/-- Modelled from the spec: a view method reduced to its capability tag
set; `none` models a view that never had the decorator applied
(`ViewsMixin` in `xblock/mixins.py` is not among the sources). -/
structure View where
  supports : Option (List String)
  deriving DecidableEq, Repr

/-- Add one functionality name to a tag set, set-wise. -/
def tagAdd (tags : List String) (f : String) : List String :=
  if f ∈ tags then tags else tags ++ [f]

/-- Modelled from the spec: the `supports` decorator — create the
view's tag set when absent and add each declared functionality name,
accumulating across applications rather than overwriting. -/
def supportsDecorator (functionalities : List String) (v : View) : View :=
  ⟨some (functionalities.foldl tagAdd (v.supports.getD []))⟩

/-- Modelled from the spec: the default `has_support` — true iff the
functionality is a non-null name present in the view's tag set; a view
with no tag set supports nothing, and no query can fail. -/
def has_support (v : View) (functionality : Option String) : Bool :=
  match v.supports with
  | none => false
  | some tags =>
      match functionality with
      | none => false
      | some f => decide (f ∈ tags)

/-! ## Definitions: index-info mixin (modelled from the spec) -/

/-- Modelled from the spec: a class using the index-info mixin, with an
optional override of `index_dictionary` (`IndexInfoMixin` in
`xblock/mixins.py` is not among the sources). -/
structure IndexInfoClass where
  indexDictionaryOverride : Option (Unit → List (String × Value))

/-- Modelled from the spec: `index_dictionary()` — the subclass
override when present, else the default returning an empty mapping. -/
def index_dictionary (cls : IndexInfoClass) : List (String × Value) :=
  match cls.indexDictionaryOverride with
  | some f => f ()
  | none => []

/-! ## Definitions: Django request adapter, `POST`
(src/xblock/django/request.py) -/

/-- A Django `UploadedFile`, reduced to the attributes the adapter
reads: the form-input name and the uploaded file's own name. -/
structure UploadedFile where
  field_name : String
  name : String
  deriving DecidableEq, Repr

/-- Embedding of `DjangoUploadedFile`: wraps a Django `UploadedFile`. -/
structure DjangoUploadedFile where
  uploaded : UploadedFile
  deriving DecidableEq, Repr

/-- `DjangoUploadedFile.name`: the name of the input element used to
upload the file. -/
def DjangoUploadedFile.name (f : DjangoUploadedFile) : String :=
  f.uploaded.field_name

/-- `DjangoUploadedFile.filename`: the name of the uploaded file. -/
def DjangoUploadedFile.filename (f : DjangoUploadedFile) : String :=
  f.uploaded.name

/-- Embedding of `querydict_to_multidict`: flatten a Django `QueryDict`
(each key with its list of values) into a flat multi-valued mapping,
wrapping each value. -/
def querydict_to_multidict {α β : Type} (query_dict : List (String × List α))
    (wrap : α → β) : List (String × β) :=
  (query_dict.map (fun kv => kv.2.map (fun v => (kv.1, wrap v)))).flatten

/-- The underlying Django request, reduced to the attributes
`DjangoWebobRequest.POST` reads. -/
structure DjangoRequest where
  method : String
  postParams : List (String × List String)
  files : List (String × List UploadedFile)

/-- The result of the `POST` property: either webob's `NoVars`
empty mapping, or a `NestedMultiDict` of the form parameters and the
wrapped uploaded files. -/
inductive PostResult where
  | noVars (reason : String)
  | nested (queryParams : List (String × String))
           (fileParams : List (String × DjangoUploadedFile))
  deriving DecidableEq

/-- The number of variables a `POST` result exposes. -/
def PostResult.varCount : PostResult → Nat
  | .noVars _ => 0
  | .nested q f => q.length + f.length

/-- Embedding of `DjangoWebobRequest.POST`: non-form methods get an
empty `NoVars` mapping; form methods get the nested combination of the
form parameters and the wrapped files. -/
def djangoPOST (req : DjangoRequest) : PostResult :=
  if req.method ∉ (["POST", "PUT", "PATCH"] : List String) then
    .noVars "Not a form request"
  else
    .nested (querydict_to_multidict req.postParams id)
            (querydict_to_multidict req.files DjangoUploadedFile.mk)

/-! ## Theorems: `HeaderDict` -/

theorem metaName_eq_norm (n : String) :
    metaName n = if normName n ∈ UNPREFIXED_HEADERS then normName n
                 else "HTTP_" ++ normName n := rfl

theorem metaName_congr {n₁ n₂ : String} (h : normName n₁ = normName n₂) :
    metaName n₁ = metaName n₂ := by
  rw [metaName_eq_norm, metaName_eq_norm, h]

theorem metaName_eq_specKey (n : String) : metaName n = specHeaderKey n := by
  rw [metaName_eq_norm]
  unfold specHeaderKey UNPREFIXED_HEADERS
  simp [List.mem_cons]

/-- C8: `HeaderDict` is a case-insensitive view over the prefixed META
store: get, set and delete of header names that agree up to letter case
and `-` versus `_` address the same underlying entry, and that entry's
key is the upper-cased, dash-to-underscore translated name, prefixed
with `HTTP_` unless the translated name is `CONTENT_TYPE` or
`CONTENT_LENGTH`. -/
theorem headerDict_case_insensitive (meta : MetaDict) (n₁ n₂ v : String)
    (h : normName n₁ = normName n₂) :
    headerGet meta n₁ = headerGet meta n₂ ∧
    headerSet meta n₁ v = headerSet meta n₂ v ∧
    headerDel meta n₁ = headerDel meta n₂ ∧
    headerGet meta n₁ = metaGet meta (specHeaderKey n₁) ∧
    headerSet meta n₁ v = metaSet meta (specHeaderKey n₁) v ∧
    headerDel meta n₁ = metaDel meta (specHeaderKey n₁) := by
  have e := metaName_congr h
  have s := metaName_eq_specKey n₁
  unfold headerGet headerSet headerDel
  exact ⟨by rw [e], by rw [e], by rw [e], by rw [s], by rw [s], by rw [s]⟩

/-- Concrete instantiation of the C8 theorem at the header names
`X-My-Header` and `x_my-header` over a one-entry META store. -/
theorem headerDict_case_insensitive_witness :
    normName "X-My-Header" = normName "x_my-header" ∧
    (headerGet [("HTTP_X_MY_HEADER", "1")] "X-My-Header" =
        headerGet [("HTTP_X_MY_HEADER", "1")] "x_my-header" ∧
      headerSet [("HTTP_X_MY_HEADER", "1")] "X-My-Header" "v" =
        headerSet [("HTTP_X_MY_HEADER", "1")] "x_my-header" "v" ∧
      headerDel [("HTTP_X_MY_HEADER", "1")] "X-My-Header" =
        headerDel [("HTTP_X_MY_HEADER", "1")] "x_my-header" ∧
      headerGet [("HTTP_X_MY_HEADER", "1")] "X-My-Header" =
        metaGet [("HTTP_X_MY_HEADER", "1")] (specHeaderKey "X-My-Header") ∧
      headerSet [("HTTP_X_MY_HEADER", "1")] "X-My-Header" "v" =
        metaSet [("HTTP_X_MY_HEADER", "1")] (specHeaderKey "X-My-Header") "v" ∧
      headerDel [("HTTP_X_MY_HEADER", "1")] "X-My-Header" =
        metaDel [("HTTP_X_MY_HEADER", "1")] (specHeaderKey "X-My-Header")) :=
  ⟨by decide,
   headerDict_case_insensitive [("HTTP_X_MY_HEADER", "1")]
     "X-My-Header" "x_my-header" "v" (by decide)⟩

/-! ## Theorems: association-list toolkit -/

theorem lookup_cons_pair {β : Type} (k : String) (p : String × β)
    (l : List (String × β)) :
    List.lookup k (p :: l) = if k = p.1 then some p.2 else List.lookup k l := by
  obtain ⟨k₀, v₀⟩ := p
  by_cases h : k = k₀
  · simp [List.lookup, beq_iff_eq.mpr h, h]
  · simp [List.lookup, beq_false_of_ne h, h]

theorem lookup_append_pair {β : Type} (k : String) (l₁ l₂ : List (String × β)) :
    List.lookup k (l₁ ++ l₂) =
      match List.lookup k l₁ with
      | some v => some v
      | none => List.lookup k l₂ := by
  induction l₁ with
  | nil => simp [List.lookup]
  | cons p rest ih =>
      by_cases h : k = p.1
      · simp [List.cons_append, lookup_cons_pair, h]
      · simp [List.cons_append, lookup_cons_pair, h, ih]

theorem lookup_isSome_of_mem {β : Type} {k : String} {v : β}
    {l : List (String × β)} (h : (k, v) ∈ l) :
    (List.lookup k l).isSome = true := by
  induction l with
  | nil => cases h
  | cons p rest ih =>
      rcases List.mem_cons.mp h with he | hm
      · rw [lookup_cons_pair, ← he]; simp
      · rw [lookup_cons_pair]
        by_cases hp : k = p.1
        · simp [hp]
        · simp [hp, ih hm]

/-! ## Theorems: scoped storage field resolution -/

theorem lookup_insertAbsent (k : String) (acc : List (String × Field))
    (nf : String × Field) :
    List.lookup k (insertAbsent acc nf) =
      match List.lookup k acc with
      | some v => some v
      | none => if nf.1 = k then some nf.2 else none := by
  obtain ⟨kn, vn⟩ := nf
  unfold insertAbsent
  cases hs : (List.lookup (kn, vn).1 acc).isSome with
  | true =>
      simp only [if_true]
      cases hk : List.lookup k acc with
      | some v => rfl
      | none =>
          by_cases he : kn = k
          · rw [show (kn, vn).1 = kn from rfl, he, hk] at hs; simp at hs
          · simp [he]
  | false =>
      simp only [Bool.false_eq_true, if_false]
      rw [lookup_append_pair]
      cases hk : List.lookup k acc with
      | some v => rfl
      | none =>
          by_cases he : kn = k
          · subst he
            simp [lookup_cons_pair]
          · have hne : k ≠ kn := fun hh => he hh.symm
            simp [lookup_cons_pair, hne, he, beq_false_of_ne hne, List.lookup]

theorem lookup_classInsert (k : String) (fs : List (String × Field))
    (acc : List (String × Field)) :
    List.lookup k (fs.foldl insertAbsent acc) =
      match List.lookup k acc with
      | some v => some v
      | none => List.lookup k fs := by
  induction fs generalizing acc with
  | nil => cases hk : List.lookup k acc <;> simp [List.foldl_nil, hk, List.lookup]
  | cons nf rest ih =>
      rw [List.foldl_cons, ih, lookup_insertAbsent]
      cases hk : List.lookup k acc with
      | some v => rfl
      | none =>
          obtain ⟨kn, vn⟩ := nf
          by_cases he : kn = k
          · subst he
            simp [lookup_cons_pair]
          · have hne : k ≠ kn := fun hh => he hh.symm
            simp [lookup_cons_pair, hne, he]

theorem lookup_resolve_aux (k : String) (mro : List PyClass)
    (acc : List (String × Field)) :
    List.lookup k (mro.foldl classInsert acc) =
      match List.lookup k acc with
      | some v => some v
      | none => firstDecl k mro := by
  induction mro generalizing acc with
  | nil => cases hk : List.lookup k acc <;> simp [List.foldl_nil, hk, firstDecl]
  | cons cls rest ih =>
      rw [List.foldl_cons, ih]
      unfold classInsert
      rw [lookup_classInsert]
      cases hk : List.lookup k acc with
      | some v => rfl
      | none =>
          cases hc : List.lookup k cls.ownFields with
          | some f => simp [firstDecl, hc]
          | none => simp [firstDecl, hc]

theorem lookup_resolveFields (k : String) (mro : List PyClass) :
    List.lookup k (resolveFields mro) = firstDecl k mro := by
  unfold resolveFields
  rw [lookup_resolve_aux]
  rfl

theorem firstDecl_isSome_of_mem {k : String} {f : Field} {cls : PyClass}
    {mro : List PyClass} (hcls : cls ∈ mro)
    (hf : (k, f) ∈ cls.ownFields) :
    (firstDecl k mro).isSome = true := by
  induction mro with
  | nil => cases hcls
  | cons c rest ih =>
      rcases List.mem_cons.mp hcls with he | hm
      · unfold firstDecl
        rw [← he]
        cases hc : List.lookup k cls.ownFields with
        | some v => simp
        | none =>
            have := lookup_isSome_of_mem hf
            rw [hc] at this; simp at this
      · unfold firstDecl
        cases hc : List.lookup k c.ownFields with
        | some v => simp
        | none => simpa using ih hm

/-- C1: the resolved field mapping binds each name to the first Field
declared for it along the method-resolution order — so when a name is
declared both in an unrelated mixin and in an earlier (primary)
ancestor, the earlier ancestor's Field object is the one bound — and
every name declared anywhere along the MRO, including by mixins outside
the primary chain, is present in the resolved mapping. -/
theorem scopedStorage_first_in_mro_wins (mro : List PyClass) (k : String)
    (cls : PyClass) (f : Field) (hcls : cls ∈ mro)
    (hf : (k, f) ∈ cls.ownFields) :
    List.lookup k (resolveFields mro) = firstDecl k mro ∧
    (List.lookup k (resolveFields mro)).isSome = true := by
  constructor
  · exact lookup_resolveFields k mro
  · rw [lookup_resolveFields]
    exact firstDecl_isSome_of_mem hcls hf

/-- Concrete instantiation of the C1 theorem: name `a` is declared both
by the primary ancestor (earlier in the MRO) and by an unrelated mixin;
the primary ancestor's Field is the one bound, and the mixin's own
field `c` is still present. -/
theorem scopedStorage_first_in_mro_wins_witness :
    (primaryCls ∈ exampleMro ∧ ("a", fieldP) ∈ primaryCls.ownFields ∧
      List.lookup "a" (resolveFields exampleMro) = some fieldP ∧
      List.lookup "c" (resolveFields exampleMro) = some fieldC) ∧
    (List.lookup "a" (resolveFields exampleMro) = firstDecl "a" exampleMro ∧
      (List.lookup "a" (resolveFields exampleMro)).isSome = true) :=
  ⟨⟨by decide, by decide, by decide, by decide⟩,
   scopedStorage_first_in_mro_wins exampleMro "a" primaryCls fieldP
     (by decide) (by decide)⟩

/-! ## Theorems: fresh per-class mapping objects -/

theorem resolveFields_cons_nofields {sub : PyClass}
    (hsub : sub.ownFields = []) (mro : List PyClass) :
    resolveFields (sub :: mro) = resolveFields mro := by
  unfold resolveFields
  rw [List.foldl_cons]
  unfold classInsert
  rw [hsub]
  rfl

theorem heap_read_alloc_old (h : Heap) (m : List (String × Field))
    (p : Nat) (hp : p < h.cells.length) :
    Heap.read (h.alloc m).1 p = Heap.read h p := by
  unfold Heap.read Heap.alloc
  rw [List.getElem?_append_left hp]

theorem heap_read_alloc_new (h : Heap) (m : List (String × Field)) :
    Heap.read (h.alloc m).1 (h.alloc m).2 = m := by
  unfold Heap.read Heap.alloc
  simp [List.getElem?_concat_length]

theorem heap_read_write_ne (h : Heap) (p q : Nat)
    (m : List (String × Field)) (hne : q ≠ p) :
    Heap.read (h.write q m) p = Heap.read h p := by
  unfold Heap.read Heap.write
  rw [List.getElem?_set_ne hne]

/-- C2: a subclass that declares no new fields gets its own resolved
mapping object, distinct from its parent's but with equal contents, and
overwriting the subclass's mapping object leaves the parent's mapping
unchanged. -/
theorem scopedStorage_subclass_fresh_mapping (h : Heap)
    (parentMro : List PyClass) (sub : PyClass)
    (hsub : sub.ownFields = []) :
    let d₁ := defineClass h parentMro
    let d₂ := defineClass d₁.1 (sub :: parentMro)
    d₁.2 ≠ d₂.2 ∧
    Heap.read d₂.1 d₁.2 = Heap.read d₂.1 d₂.2 ∧
    (∀ m', Heap.read (Heap.write d₂.1 d₂.2 m') d₁.2 = Heap.read d₂.1 d₁.2) := by
  intro d₁ d₂
  have hlen : d₁.2 = h.cells.length := rfl
  have hlen₂ : d₂.2 = h.cells.length + 1 := by
    show (defineClass d₁.1 (sub :: parentMro)).2 = h.cells.length + 1
    show d₁.1.cells.length = h.cells.length + 1
    show (h.cells ++ [resolveFields parentMro]).length = h.cells.length + 1
    simp
  refine ⟨?_, ?_, ?_⟩
  · rw [hlen, hlen₂]
    omega
  · have h₁ : Heap.read d₂.1 d₁.2 = resolveFields parentMro := by
      have hp : d₁.2 < d₁.1.cells.length := by
        rw [hlen]
        show h.cells.length < (h.cells ++ [resolveFields parentMro]).length
        simp
      calc Heap.read d₂.1 d₁.2
          = Heap.read d₁.1 d₁.2 := heap_read_alloc_old d₁.1 _ d₁.2 hp
        _ = resolveFields parentMro := heap_read_alloc_new h _
    have h₂ : Heap.read d₂.1 d₂.2 = resolveFields (sub :: parentMro) :=
      heap_read_alloc_new d₁.1 _
    rw [h₁, h₂, resolveFields_cons_nofields hsub]
  · intro m'
    exact heap_read_write_ne d₂.1 d₁.2 d₂.2 m'
      (by rw [hlen, hlen₂]; omega)

/-- Concrete instantiation of the C2 theorem: defining the parent class
and then a field-less subclass over an empty store yields distinct
mapping objects with equal contents, and writing through the subclass's
pointer leaves the parent's mapping unchanged. -/
theorem scopedStorage_subclass_fresh_mapping_witness :
    childCls.ownFields = [] ∧
    (let d₁ := defineClass ⟨[]⟩ [primaryCls]
     let d₂ := defineClass d₁.1 (childCls :: [primaryCls])
     d₁.2 ≠ d₂.2 ∧
     Heap.read d₂.1 d₁.2 = Heap.read d₂.1 d₂.2 ∧
     (∀ m', Heap.read (Heap.write d₂.1 d₂.2 m') d₁.2 = Heap.read d₂.1 d₁.2)) :=
  ⟨rfl, scopedStorage_subclass_fresh_mapping ⟨[]⟩ [primaryCls] childCls rfl⟩

/-! ## Theorems: XML serialization -/

theorem lookup_isSome_iff_mem_keys {β : Type} (k : String)
    (l : List (String × β)) :
    (List.lookup k l).isSome = true ↔ k ∈ l.map Prod.fst := by
  induction l with
  | nil => simp [List.lookup]
  | cons p rest ih =>
      rw [lookup_cons_pair]
      by_cases h : k = p.1
      · simp [h]
      · simp [h, ih]

theorem exists_val_of_mem_keys {β : Type} {k : String}
    {l : List (String × β)} (h : k ∈ l.map Prod.fst) :
    ∃ v, (k, v) ∈ l := by
  rcases List.mem_map.mp h with ⟨⟨k₀, v₀⟩, hp, he⟩
  exact ⟨v₀, by simpa [← he] using hp⟩

theorem lookup_nodeSet_self (node : Node) (k : String) (v : Value) :
    List.lookup k (nodeSet node k v) = some v := by
  induction node with
  | nil => simp [nodeSet, lookup_cons_pair]
  | cons p rest ih =>
      obtain ⟨k₀, v₀⟩ := p
      by_cases h : k₀ = k
      · subst h; simp [nodeSet, lookup_cons_pair]
      · have hne : k ≠ k₀ := fun hh => h hh.symm
        simp [nodeSet, h, lookup_cons_pair, hne, ih]

theorem lookup_nodeSet_ne (node : Node) (k k' : String) (v : Value)
    (h : k' ≠ k) :
    List.lookup k' (nodeSet node k v) = List.lookup k' node := by
  induction node with
  | nil => simp [nodeSet, lookup_cons_pair, h, beq_false_of_ne h, List.lookup]
  | cons p rest ih =>
      obtain ⟨k₀, v₀⟩ := p
      by_cases h₀ : k₀ = k
      · subst h₀
        simp [nodeSet, lookup_cons_pair, h]
      · simp [nodeSet, h₀, lookup_cons_pair, ih]

theorem keys_nodeSet (node : Node) (k : String) (v : Value) :
    (nodeSet node k v).map Prod.fst = keysInsert (node.map Prod.fst) k := by
  induction node with
  | nil => simp [nodeSet, keysInsert]
  | cons p rest ih =>
      obtain ⟨k₀, v₀⟩ := p
      by_cases h₀ : k₀ = k
      · subst h₀
        simp [nodeSet, keysInsert]
      · have hne : k ≠ k₀ := fun hh => h₀ hh.symm
        by_cases hm : k ∈ rest.map Prod.fst
        · simp [nodeSet, h₀, keysInsert, hm, ih, hne]
        · simp [nodeSet, h₀, keysInsert, hm, ih, hne]

theorem serialize_lookup_not_mem (gen : IdGen) (data : FieldData)
    (fs : List (String × Field)) (node : Node) (ctr : Nat) (k : String)
    (hk : k ∉ fs.map Prod.fst) :
    List.lookup k (serializeFields gen data fs node ctr).1 =
      List.lookup k node := by
  induction fs generalizing node ctr with
  | nil => rfl
  | cons nf rest ih =>
      have hk1 : k ≠ nf.1 := by
        intro hh; exact hk (by simp [hh])
      have hkr : k ∉ rest.map Prod.fst := by
        intro hh; exact hk (by simp [hh])
      by_cases hg : (is_set_on data nf.1 || nf.2.force_export) = true
      · rw [show serializeFields gen data (nf :: rest) node ctr =
              serializeFields gen data rest
                (nodeSet node nf.1 (exportValue gen data ctr nf.1 nf.2).1)
                (exportValue gen data ctr nf.1 nf.2).2 from by
              simp [serializeFields, hg]]
        rw [ih _ _ hkr, lookup_nodeSet_ne _ _ _ _ hk1]
      · rw [show serializeFields gen data (nf :: rest) node ctr =
              serializeFields gen data rest node ctr from by
              simp [serializeFields, hg]]
        exact ih _ _ hkr

theorem serialize_lookup_mem (gen : IdGen) (data : FieldData)
    (fs : List (String × Field)) (node : Node) (ctr : Nat) (k : String)
    (f : Field) (hnodup : (fs.map Prod.fst).Nodup) (hmem : (k, f) ∈ fs) :
    (is_set_on data k = true →
        List.lookup k (serializeFields gen data fs node ctr).1 =
          List.lookup k data) ∧
    (is_set_on data k = false → f.force_export = true →
        ((∀ v, f.default = .static v →
            List.lookup k (serializeFields gen data fs node ctr).1 = some v) ∧
         (f.default = .uniqueId →
            ∃ c, List.lookup k (serializeFields gen data fs node ctr).1 =
              some (Value.str (gen c))))) ∧
    (is_set_on data k = false → f.force_export = false →
        List.lookup k (serializeFields gen data fs node ctr).1 =
          List.lookup k node) := by
  induction fs generalizing node ctr with
  | nil => cases hmem
  | cons nf rest ih =>
      obtain ⟨k₀, f₀⟩ := nf
      have hnodups : (k₀ :: rest.map Prod.fst).Nodup := by
        simpa only [List.map_cons] using hnodup
      have hpair := List.nodup_cons.mp hnodups
      have hhead : k₀ ∉ rest.map Prod.fst := hpair.1
      have hnodup' : (rest.map Prod.fst).Nodup := hpair.2
      by_cases hk1 : k = k₀
      · subst hk1
        have hf : f = f₀ := by
          rcases List.mem_cons.mp hmem with he | hm
          · exact congrArg Prod.snd he
          · exact absurd (List.mem_map_of_mem Prod.fst hm) hhead
        subst hf
        refine ⟨?_, ?_, ?_⟩
        · intro hset
          rcases Option.isSome_iff_exists.mp hset with ⟨v, hv⟩
          have hg : (is_set_on data k || f.force_export) = true := by
            rw [hset]; rfl
          rw [show serializeFields gen data ((k, f) :: rest) node ctr =
                serializeFields gen data rest
                  (nodeSet node k (exportValue gen data ctr k f).1)
                  (exportValue gen data ctr k f).2 from by
                simp [serializeFields, hg]]
          rw [serialize_lookup_not_mem gen data rest _ _ k hhead]
          rw [show (exportValue gen data ctr k f).1 = v from by
                simp [exportValue, is_set_on, hv]]
          rw [lookup_nodeSet_self, hv]
        · intro hunset hforce
          have hnone : List.lookup k data = none := by
            cases hd : List.lookup k data with
            | none => rfl
            | some v => rw [is_set_on, hd] at hunset; simp at hunset
          have hg : (is_set_on data k || f.force_export) = true := by
            rw [hforce]; simp
          constructor
          · intro v hv
            rw [show serializeFields gen data ((k, f) :: rest) node ctr =
                  serializeFields gen data rest
                    (nodeSet node k (exportValue gen data ctr k f).1)
                    (exportValue gen data ctr k f).2 from by
                  simp [serializeFields, hg]]
            rw [serialize_lookup_not_mem gen data rest _ _ k hhead]
            rw [show (exportValue gen data ctr k f).1 = v from by
                  simp [exportValue, hnone, hv]]
            rw [lookup_nodeSet_self]
          · intro hv
            refine ⟨ctr, ?_⟩
            rw [show serializeFields gen data ((k, f) :: rest) node ctr =
                  serializeFields gen data rest
                    (nodeSet node k (exportValue gen data ctr k f).1)
                    (exportValue gen data ctr k f).2 from by
                  simp [serializeFields, hg]]
            rw [serialize_lookup_not_mem gen data rest _ _ k hhead]
            rw [show (exportValue gen data ctr k f).1 = Value.str (gen ctr) from by
                  simp [exportValue, hnone, hv]]
            rw [lookup_nodeSet_self]
        · intro hunset hforce
          have hg : (is_set_on data k || f.force_export) = false := by
            rw [hunset, hforce]; rfl
          rw [show serializeFields gen data ((k, f) :: rest) node ctr =
                serializeFields gen data rest node ctr from by
              simp [serializeFields, hg]]
          exact serialize_lookup_not_mem gen data rest node ctr k hhead
      · have hm : (k, f) ∈ rest := by
          rcases List.mem_cons.mp hmem with he | hm
          · exact absurd (congrArg Prod.fst he) hk1
          · exact hm
        have hne : k ≠ k₀ := hk1
        by_cases hg : (is_set_on data k₀ || f₀.force_export) = true
        · rw [show serializeFields gen data ((k₀, f₀) :: rest) node ctr =
                serializeFields gen data rest
                  (nodeSet node k₀ (exportValue gen data ctr k₀ f₀).1)
                  (exportValue gen data ctr k₀ f₀).2 from by
              simp [serializeFields, hg]]
          have := ih (nodeSet node k₀ (exportValue gen data ctr k₀ f₀).1)
            (exportValue gen data ctr k₀ f₀).2 hnodup' hm
          refine ⟨this.1, this.2.1, ?_⟩
          intro hunset hforce
          rw [this.2.2 hunset hforce, lookup_nodeSet_ne _ _ _ _ hne]
        · rw [show serializeFields gen data ((k₀, f₀) :: rest) node ctr =
                serializeFields gen data rest node ctr from by
              simp [serializeFields, hg]]
          exact ih node ctr hnodup' hm

/-- C3: `add_xml_to_node` writes one attribute per field that is
explicitly set (with its current value) or force-exported (with its
possibly default-generated value), skips every field that is unset and
not force-exported, and always stamps the node with the `xblock-family`
identity attribute naming the block's plugin identifier. -/
theorem add_xml_to_node_spec (gen : IdGen) (blk : Block) (data : FieldData)
    (ctr : Nat) (k : String) (f : Field)
    (hnodup : (blk.fields.map Prod.fst).Nodup)
    (hfam : "xblock-family" ∉ blk.fields.map Prod.fst)
    (hmem : (k, f) ∈ blk.fields) :
    List.lookup "xblock-family" (add_xml_to_node gen blk data [] ctr).1 =
      some (Value.str blk.entry_point) ∧
    (is_set_on data k = true →
        List.lookup k (add_xml_to_node gen blk data [] ctr).1 =
          List.lookup k data) ∧
    (is_set_on data k = false → f.force_export = true →
        ((∀ v, f.default = .static v →
            List.lookup k (add_xml_to_node gen blk data [] ctr).1 = some v) ∧
         (f.default = .uniqueId →
            ∃ c, List.lookup k (add_xml_to_node gen blk data [] ctr).1 =
              some (Value.str (gen c))))) ∧
    (is_set_on data k = false → f.force_export = false →
        List.lookup k (add_xml_to_node gen blk data [] ctr).1 = none) := by
  have hkfam : k ≠ "xblock-family" := by
    intro hh
    rw [hh] at hmem
    exact hfam (List.mem_map_of_mem Prod.fst hmem)
  have main := serialize_lookup_mem gen data blk.fields
    (nodeSet [] "xblock-family" (.str blk.entry_point)) ctr k f hnodup hmem
  refine ⟨?_, main.1, main.2.1, ?_⟩
  · rw [show add_xml_to_node gen blk data [] ctr =
        serializeFields gen data blk.fields
          (nodeSet [] "xblock-family" (.str blk.entry_point)) ctr from rfl]
    rw [serialize_lookup_not_mem gen data blk.fields _ ctr _ hfam]
    exact lookup_nodeSet_self [] _ _
  · intro hunset hforce
    rw [show add_xml_to_node gen blk data [] ctr =
        serializeFields gen data blk.fields
          (nodeSet [] "xblock-family" (.str blk.entry_point)) ctr from rfl]
    rw [main.2.2 hunset hforce]
    rw [lookup_nodeSet_ne _ _ _ _ hkfam]
    rfl

/-- Concrete instantiation of the C3 theorem at the test block with the
`field` attribute explicitly set. -/
theorem add_xml_to_node_spec_witness :
    ((testBlock.fields.map Prod.fst).Nodup ∧
      "xblock-family" ∉ testBlock.fields.map Prod.fst ∧
      ("field", (⟨Scope.content, .static .null, false⟩ : Field)) ∈
        testBlock.fields) ∧
    (List.lookup "xblock-family"
        (add_xml_to_node (fun _ => "u") testBlock
          [("field", .str "Value1")] [] 0).1 =
      some (Value.str testBlock.entry_point) ∧
    (is_set_on [("field", .str "Value1")] "field" = true →
        List.lookup "field"
          (add_xml_to_node (fun _ => "u") testBlock
            [("field", .str "Value1")] [] 0).1 =
          List.lookup "field" [("field", Value.str "Value1")]) ∧
    (is_set_on [("field", .str "Value1")] "field" = false →
      (⟨Scope.content, .static .null, false⟩ : Field).force_export = true →
        ((∀ v, (⟨Scope.content, .static .null, false⟩ : Field).default =
              .static v →
            List.lookup "field"
              (add_xml_to_node (fun _ => "u") testBlock
                [("field", .str "Value1")] [] 0).1 = some v) ∧
         ((⟨Scope.content, .static .null, false⟩ : Field).default =
              .uniqueId →
            ∃ _c : Nat, List.lookup "field"
              (add_xml_to_node (fun _ => "u") testBlock
                [("field", .str "Value1")] [] 0).1 =
              some (Value.str "u")))) ∧
    (is_set_on [("field", .str "Value1")] "field" = false →
      (⟨Scope.content, .static .null, false⟩ : Field).force_export = false →
        List.lookup "field"
          (add_xml_to_node (fun _ => "u") testBlock
            [("field", .str "Value1")] [] 0).1 = none)) :=
  ⟨⟨by decide, by decide, by decide⟩,
   add_xml_to_node_spec (fun _ => "u") testBlock [("field", .str "Value1")]
     0 "field" ⟨Scope.content, .static .null, false⟩
     (by decide) (by decide) (by decide)⟩

theorem serialize_keys_congr (gen : IdGen) (data : FieldData)
    (fs : List (String × Field)) (node₁ node₂ : Node) (c₁ c₂ : Nat)
    (h : node₁.map Prod.fst = node₂.map Prod.fst) :
    (serializeFields gen data fs node₁ c₁).1.map Prod.fst =
      (serializeFields gen data fs node₂ c₂).1.map Prod.fst := by
  induction fs generalizing node₁ node₂ c₁ c₂ with
  | nil => simpa [serializeFields] using h
  | cons nf rest ih =>
      by_cases hg : (is_set_on data nf.1 || nf.2.force_export) = true
      · rw [show serializeFields gen data (nf :: rest) node₁ c₁ =
              serializeFields gen data rest
                (nodeSet node₁ nf.1 (exportValue gen data c₁ nf.1 nf.2).1)
                (exportValue gen data c₁ nf.1 nf.2).2 from by
              simp [serializeFields, hg],
            show serializeFields gen data (nf :: rest) node₂ c₂ =
              serializeFields gen data rest
                (nodeSet node₂ nf.1 (exportValue gen data c₂ nf.1 nf.2).1)
                (exportValue gen data c₂ nf.1 nf.2).2 from by
              simp [serializeFields, hg]]
        exact ih _ _ _ _ (by rw [keys_nodeSet, keys_nodeSet, h])
      · rw [show serializeFields gen data (nf :: rest) node₁ c₁ =
              serializeFields gen data rest node₁ c₁ from by
              simp [serializeFields, hg],
            show serializeFields gen data (nf :: rest) node₂ c₂ =
              serializeFields gen data rest node₂ c₂ from by
              simp [serializeFields, hg]]
        exact ih _ _ _ _ h

/-- C7: exporting twice onto fresh nodes with no fields set yields
identical attribute-name sets, containing exactly the identity stamp
and the force-exported fields; a force-exported static default appears
with its default value on both exports, and a force-exported unique-id
default appears (with some non-null value) on both exports. -/
theorem add_xml_twice_fresh (gen : IdGen) (blk : Block) (ctr : Nat)
    (hnodup : (blk.fields.map Prod.fst).Nodup)
    (hfam : "xblock-family" ∉ blk.fields.map Prod.fst) :
    ((add_xml_to_node gen blk [] [] ctr).1.map Prod.fst =
       (add_xml_to_node gen blk [] []
          (add_xml_to_node gen blk [] [] ctr).2).1.map Prod.fst) ∧
    (∀ k, k ∈ (add_xml_to_node gen blk [] [] ctr).1.map Prod.fst ↔
        (k = "xblock-family" ∨
          ∃ f, (k, f) ∈ blk.fields ∧ f.force_export = true)) ∧
    (∀ k f v, (k, f) ∈ blk.fields → f.force_export = true →
        f.default = .static v →
        List.lookup k (add_xml_to_node gen blk [] [] ctr).1 = some v ∧
        List.lookup k (add_xml_to_node gen blk [] []
          (add_xml_to_node gen blk [] [] ctr).2).1 = some v) ∧
    (∀ k f, (k, f) ∈ blk.fields → f.force_export = true →
        f.default = .uniqueId →
        (List.lookup k (add_xml_to_node gen blk [] [] ctr).1).isSome = true ∧
        (List.lookup k (add_xml_to_node gen blk [] []
          (add_xml_to_node gen blk [] [] ctr).2).1).isSome = true) := by
  have hunset : ∀ k, is_set_on ([] : FieldData) k = false := fun _ => rfl
  have hred : ∀ c : Nat, add_xml_to_node gen blk [] [] c =
      serializeFields gen [] blk.fields
        (nodeSet [] "xblock-family" (.str blk.entry_point)) c := fun _ => rfl
  refine ⟨?_, ?_, ?_, ?_⟩
  · rw [hred, hred]
    exact serialize_keys_congr gen [] blk.fields _ _ _ _ rfl
  · intro k
    rw [← lookup_isSome_iff_mem_keys]
    constructor
    · intro hsome
      by_cases hkf : k = "xblock-family"
      · exact Or.inl hkf
      · right
        by_cases hk : k ∈ blk.fields.map Prod.fst
        · obtain ⟨f, hm⟩ := exists_val_of_mem_keys hk
          by_cases hforce : f.force_export = true
          · exact ⟨f, hm, hforce⟩
          · have hforce' : f.force_export = false :=
              Bool.eq_false_iff.mpr hforce
            have main := serialize_lookup_mem gen [] blk.fields
              (nodeSet [] "xblock-family" (.str blk.entry_point)) ctr k f
              hnodup hm
            rw [hred] at hsome
            rw [main.2.2 (hunset k) hforce',
              lookup_nodeSet_ne _ _ _ _ hkf] at hsome
            simp [List.lookup] at hsome
        · rw [hred] at hsome
          rw [serialize_lookup_not_mem gen [] blk.fields _ ctr k hk,
            lookup_nodeSet_ne _ _ _ _ hkf] at hsome
          simp [List.lookup] at hsome
    · intro hor
      rcases hor with hkf | ⟨f, hm, hforce⟩
      · subst hkf
        rw [hred]
        rw [serialize_lookup_not_mem gen [] blk.fields _ ctr _ hfam,
          lookup_nodeSet_self]
        rfl
      · have main := serialize_lookup_mem gen [] blk.fields
          (nodeSet [] "xblock-family" (.str blk.entry_point)) ctr k f
          hnodup hm
        rw [hred]
        cases hd : f.default with
        | static v =>
            rw [(main.2.1 (hunset k) hforce).1 v hd]
            rfl
        | uniqueId =>
            obtain ⟨c, hc⟩ := (main.2.1 (hunset k) hforce).2 hd
            rw [hc]
            rfl
  · intro k f v hm hforce hd
    constructor
    · rw [hred]
      exact (serialize_lookup_mem gen [] blk.fields _ ctr k f
        hnodup hm).2.1 (hunset k) hforce |>.1 v hd
    · rw [hred]
      exact (serialize_lookup_mem gen [] blk.fields _
        (add_xml_to_node gen blk [] [] ctr).2 k f
        hnodup hm).2.1 (hunset k) hforce |>.1 v hd
  · intro k f hm hforce hd
    constructor
    · rw [hred]
      obtain ⟨c, hc⟩ := (serialize_lookup_mem gen [] blk.fields _ ctr k f
        hnodup hm).2.1 (hunset k) hforce |>.2 hd
      rw [hc]
      rfl
    · rw [hred]
      obtain ⟨c, hc⟩ := (serialize_lookup_mem gen [] blk.fields _
        (add_xml_to_node gen blk [] [] ctr).2 k f
        hnodup hm).2.1 (hunset k) hforce |>.2 hd
      rw [hc]
      rfl

/-- Concrete instantiation of the C7 theorem at the test block with no
fields set, exporting twice with a counter-indexed generator. -/
theorem add_xml_twice_fresh_witness :
    ((testBlock.fields.map Prod.fst).Nodup ∧
      "xblock-family" ∉ testBlock.fields.map Prod.fst) ∧
    (((add_xml_to_node (fun n => toString n) testBlock [] [] 0).1.map
        Prod.fst =
       (add_xml_to_node (fun n => toString n) testBlock [] []
          (add_xml_to_node (fun n => toString n) testBlock [] [] 0).2).1.map
        Prod.fst) ∧
    (∀ k, k ∈ (add_xml_to_node (fun n => toString n) testBlock
          [] [] 0).1.map Prod.fst ↔
        (k = "xblock-family" ∨
          ∃ f, (k, f) ∈ testBlock.fields ∧ f.force_export = true)) ∧
    (∀ k f v, (k, f) ∈ testBlock.fields → f.force_export = true →
        f.default = .static v →
        List.lookup k (add_xml_to_node (fun n => toString n) testBlock
          [] [] 0).1 = some v ∧
        List.lookup k (add_xml_to_node (fun n => toString n) testBlock [] []
          (add_xml_to_node (fun n => toString n) testBlock
            [] [] 0).2).1 = some v) ∧
    (∀ k f, (k, f) ∈ testBlock.fields → f.force_export = true →
        f.default = .uniqueId →
        (List.lookup k (add_xml_to_node (fun n => toString n) testBlock
          [] [] 0).1).isSome = true ∧
        (List.lookup k (add_xml_to_node (fun n => toString n) testBlock [] []
          (add_xml_to_node (fun n => toString n) testBlock
            [] [] 0).2).1).isSome = true)) :=
  ⟨⟨by decide, by decide⟩,
   add_xml_twice_fresh (fun n => toString n) testBlock 0
     (by decide) (by decide)⟩

/-! ## Theorems: hierarchy mixin -/

theorem keys_insertAbsent_nodup (acc : List (String × Field))
    (nf : String × Field) (h : (acc.map Prod.fst).Nodup) :
    ((insertAbsent acc nf).map Prod.fst).Nodup := by
  unfold insertAbsent
  cases hs : (List.lookup nf.1 acc).isSome with
  | true => simpa using h
  | false =>
      have hnm : nf.1 ∉ acc.map Prod.fst := by
        intro hmem
        rw [(lookup_isSome_iff_mem_keys nf.1 acc).mpr hmem] at hs
        cases hs
      simp only [Bool.false_eq_true, if_false, List.map_append]
      rw [List.nodup_append]
      refine ⟨h, List.nodup_singleton _, ?_⟩
      intro a ha hb
      simp at hb
      subst hb
      exact hnm ha

theorem keys_classInsert_nodup (fs : List (String × Field))
    (acc : List (String × Field)) (h : (acc.map Prod.fst).Nodup) :
    ((fs.foldl insertAbsent acc).map Prod.fst).Nodup := by
  induction fs generalizing acc with
  | nil => simpa using h
  | cons nf rest ih =>
      rw [List.foldl_cons]
      exact ih _ (keys_insertAbsent_nodup acc nf h)

theorem keys_resolve_aux_nodup (mro : List PyClass)
    (acc : List (String × Field)) (h : (acc.map Prod.fst).Nodup) :
    ((mro.foldl classInsert acc).map Prod.fst).Nodup := by
  induction mro generalizing acc with
  | nil => simpa using h
  | cons cls rest ih =>
      rw [List.foldl_cons]
      exact ih _ (keys_classInsert_nodup cls.ownFields acc h)

theorem keys_resolveFields_nodup (mro : List PyClass) :
    ((resolveFields mro).map Prod.fst).Nodup :=
  keys_resolve_aux_nodup mro [] (by simp)

theorem firstDecl_none {name : String} {mro : List PyClass}
    (h : ∀ cls ∈ mro, List.lookup name cls.ownFields = none) :
    firstDecl name mro = none := by
  induction mro with
  | nil => rfl
  | cons cls rest ih =>
      unfold firstDecl
      rw [h cls (List.mem_cons_self _ _)]
      exact ih (fun c hc => h c (List.mem_cons_of_mem _ hc))

/-- C4: when the inherited `has_children` flag is true, exactly one
`children` field — with the dedicated children scope and empty-sequence
default — is present in the resolved field set (the mapping's keys stay
duplicate-free); when the flag is false or absent there is no
`children` entry, so attribute access for it fails rather than
returning an empty default; and a subclass that does not explicitly
override the flag keeps its ancestors' value. -/
theorem hierarchy_children_injection (mro : List HClass) (sub : HClass)
    (hnodecl : ∀ cls ∈ mro, List.lookup "children" cls.ownFields = none)
    (hsub : sub.ownHasChildren = none) :
    (has_children mro = true →
        List.lookup "children" (hierarchyFields mro) = some childrenField ∧
        childrenField.scope = Scope.children ∧
        childrenField.default = .static (.strList []) ∧
        ((hierarchyFields mro).map Prod.fst).Nodup) ∧
    (has_children mro = false →
        List.lookup "children" (hierarchyFields mro) = none) ∧
    has_children (sub :: mro) = has_children mro := by
  have hbase :
      List.lookup "children" (resolveFields (mro.map HClass.toPyClass)) =
        none := by
    rw [lookup_resolveFields]
    apply firstDecl_none
    intro cls hcls
    rcases List.mem_map.mp hcls with ⟨c, hc, he⟩
    rw [← he]
    exact hnodecl c hc
  refine ⟨?_, ?_, ?_⟩
  · intro hflag
    refine ⟨?_, rfl, rfl, ?_⟩
    · unfold hierarchyFields
      simp only [hflag, if_true]
      rw [lookup_insertAbsent, hbase]
      simp
    · unfold hierarchyFields
      simp only [hflag, if_true]
      exact keys_insertAbsent_nodup _ _ (keys_resolveFields_nodup _)
  · intro hflag
    unfold hierarchyFields
    simp only [hflag, Bool.false_eq_true, if_false]
    exact hbase
  · simp [has_children, hsub]

/-- Concrete instantiation of the C4 theorem at a children-capable
class and a subclass that does not override the flag. -/
theorem hierarchy_children_injection_witness :
    ((∀ cls ∈ [capableCls], List.lookup "children" cls.ownFields = none) ∧
      plainSub.ownHasChildren = none) ∧
    ((has_children [capableCls] = true →
        List.lookup "children" (hierarchyFields [capableCls]) =
          some childrenField ∧
        childrenField.scope = Scope.children ∧
        childrenField.default = .static (.strList []) ∧
        ((hierarchyFields [capableCls]).map Prod.fst).Nodup) ∧
     (has_children [capableCls] = false →
        List.lookup "children" (hierarchyFields [capableCls]) = none) ∧
     has_children (plainSub :: [capableCls]) = has_children [capableCls]) :=
  ⟨⟨by decide, rfl⟩,
   hierarchy_children_injection [capableCls] plainSub (by decide) rfl⟩

/-! ## Theorems: views/capability mixin -/

/-- C5: the default `has_support` returns true iff the functionality is
a non-null name present in the view's tag set; a view with no applied
capability tags yields false for every functionality, the null one
included, and the query is a total function — an unknown functionality
or view gives false, never an error. -/
theorem has_support_default_spec (v : View) (f : Option String) :
    (has_support v f = true ↔ ∃ s, f = some s ∧ s ∈ v.supports.getD []) ∧
    (v.supports = none → has_support v f = false) := by
  constructor
  · cases hv : v.supports with
    | none => cases f <;> simp [has_support, hv]
    | some tags =>
        cases f with
        | none => simp [has_support, hv]
        | some s => simp [has_support, hv]
  · intro hv
    cases f <;> simp [has_support, hv]

theorem mem_foldl_tagAdd (x : String) (fs : List String)
    (tags : List String) :
    x ∈ fs.foldl tagAdd tags ↔ x ∈ tags ∨ x ∈ fs := by
  induction fs generalizing tags with
  | nil => simp
  | cons f rest ih =>
      rw [List.foldl_cons, ih]
      unfold tagAdd
      by_cases h : f ∈ tags
      · simp only [h, if_true, List.mem_cons]
        constructor
        · rintro (ha | hr)
          · exact Or.inl ha
          · exact Or.inr (Or.inr hr)
        · rintro (ha | he | hr)
          · exact Or.inl ha
          · exact Or.inl (by rw [he]; exact h)
          · exact Or.inr hr
      · simp [h, List.mem_append, List.mem_cons, or_assoc]

/-- C6: the capability decorator accumulates functionality names — a
single application tags the view with every declared name, and a second
application with a different set yields the union of both sets (on top
of any earlier tags), never just the last-applied set. -/
theorem supports_decorator_accumulates (v : View) (A B : List String)
    (x : String) :
    ((supportsDecorator B (supportsDecorator A v)).supports.isSome = true) ∧
    (x ∈ (supportsDecorator A v).supports.getD [] ↔
       x ∈ v.supports.getD [] ∨ x ∈ A) ∧
    (x ∈ (supportsDecorator B (supportsDecorator A v)).supports.getD [] ↔
       (x ∈ v.supports.getD [] ∨ x ∈ A) ∨ x ∈ B) := by
  refine ⟨rfl, ?_, ?_⟩
  · unfold supportsDecorator
    simp [mem_foldl_tagAdd]
  · unfold supportsDecorator
    simp [mem_foldl_tagAdd]

/-! ## Theorems: index-info mixin -/

/-- C9: on any class that does not override it, `index_dictionary`
returns the empty mapping; as a total function into key-value mappings
it cannot fail and always yields a mapping. -/
theorem index_dictionary_default_empty (cls : IndexInfoClass)
    (h : cls.indexDictionaryOverride = none) :
    index_dictionary cls = [] := by
  unfold index_dictionary
  rw [h]

/-- Concrete instantiation of the C9 theorem at a class with no
override. -/
theorem index_dictionary_default_empty_witness :
    (⟨none⟩ : IndexInfoClass).indexDictionaryOverride = none ∧
    index_dictionary ⟨none⟩ = [] :=
  ⟨rfl, index_dictionary_default_empty ⟨none⟩ rfl⟩

/-! ## Theorems: Django request adapter, `POST` -/

/-- C10: for a method other than POST, PUT or PATCH, `POST` is the
empty `NoVars` mapping and ignores the underlying form data entirely;
for POST/PUT/PATCH it is the nested combination of the form parameters
with the uploaded files wrapped as `DjangoUploadedFile`s, whose `name`
is the form-input name and whose `filename` is the uploaded file's own
name. -/
theorem djangoPOST_spec (req : DjangoRequest) :
    (req.method ∉ (["POST", "PUT", "PATCH"] : List String) →
        djangoPOST req = .noVars "Not a form request" ∧
        (djangoPOST req).varCount = 0 ∧
        (∀ p f, djangoPOST ⟨req.method, p, f⟩ = djangoPOST req)) ∧
    (req.method ∈ (["POST", "PUT", "PATCH"] : List String) →
        djangoPOST req = .nested (querydict_to_multidict req.postParams id)
          (querydict_to_multidict req.files DjangoUploadedFile.mk)) ∧
    (∀ u : UploadedFile, (DjangoUploadedFile.mk u).name = u.field_name ∧
        (DjangoUploadedFile.mk u).filename = u.name) := by
  refine ⟨?_, ?_, fun u => ⟨rfl, rfl⟩⟩
  · intro h
    refine ⟨?_, ?_, ?_⟩
    · simp [djangoPOST, h]
    · simp [djangoPOST, h, PostResult.varCount]
    · intro p f
      simp [djangoPOST, h]
  · intro h
    simp [djangoPOST, h]

end XBlockSpec
